import Mathlib

/-!
Shallow embedding of the DFlow copy-trading bot core: the momentum sliding
window, signal evaluation, position ledger (open / close / cooldown), the
exit monitor and the metrics aggregator, translated from the TypeScript
sources (the primary variant and, where it diverges, the legacy variant).
Prices, volumes and percentages are modelled as rationals, timestamps as
integers (milliseconds).
-/

namespace DFlow

/-- Side of a binary-outcome contract: "yes" or "no". -/
inductive Side
  | yes
  | no
deriving DecidableEq

/-- Trade tick received on the feed (types.ts, TradeUpdate). -/
structure TradeUpdate where
  market_ticker : String
  trade_id : String
  price : ℚ
  count : ℚ
  yes_price : ℚ
  no_price : ℚ
  taker_side : Side
  created_time : Int
deriving DecidableEq

/-- Momentum aggregate over the sliding window (types.ts, MomentumMetrics). -/
structure MomentumMetrics where
  totalVolume : ℚ
  tradeCount : Nat
  yesCount : Nat
  noCount : Nat
  directionalBias : ℚ
  priceChange : ℚ
deriving DecidableEq

/-- Open paper-trading position (types.ts, Position). -/
structure Position where
  ticker : String
  side : Side
  entryPrice : ℚ
  contracts : Int
  entryTime : Int
  entryTradeId : String
  lastLoggedPnLPercent : Option ℚ
deriving DecidableEq

/-- Reason recorded on a closed trade. The source stores a formatted string;
here the constructor names which rule fired and carries its value. -/
inductive CloseReason
  | profitTarget (pnlPercent : ℚ)
  | stopLoss (pnlPercent : ℚ)
  | staleData (maxAgeMs : Int)
  | manual (text : String)
deriving DecidableEq

/-- Record appended to the closed-trade history (index.ts, ClosedTrade). -/
structure ClosedTrade where
  ticker : String
  side : Side
  entryPrice : ℚ
  exitPrice : ℚ
  entryTime : Int
  exitTime : Int
  duration : ℚ
  pnl : ℚ
  pnlPercent : ℚ
  reason : CloseReason
  momentumMetrics : Option MomentumMetrics
deriving DecidableEq

/-- Cooldown record for a ticker (the tickerCooldowns map values). -/
structure CooldownEntry where
  timestamp : Int
  wasWin : Bool
deriving DecidableEq

/-- Configuration constants loaded from the environment. -/
structure Config where
  POSITION_SIZE_DOLLARS : ℚ
  MAX_OPEN_POSITIONS : Nat
  PROFIT_TARGET : Option ℚ
  STOP_LOSS : Option ℚ
  MAX_POSITION_AGE_MS : Int
  COOLDOWN_TIME_MS : Int
  LOSS_COOLDOWN_ENABLED : Bool
  WIN_COOLDOWN_ENABLED : Bool
  MOMENTUM_MIN_VOLUME : ℚ
  MOMENTUM_MIN_TRADES : Nat
  MOMENTUM_MIN_DIRECTIONAL_BIAS : ℚ
deriving DecidableEq

/-- Pair of current yes/no mid prices in cents, as returned by getCurrentPrice. -/
structure Prices where
  yesPrice : ℚ
  noPrice : ℚ
deriving DecidableEq

/-- Full mutable ledger state: the four process-wide maps plus the
closed-trade history. Maps are association lists keyed by ticker. -/
structure LedgerState where
  positions : List (String × Position)
  positionMomentumMetrics : List (String × MomentumMetrics)
  closedTrades : List ClosedTrade
  tickerCooldowns : List (String × CooldownEntry)
deriving DecidableEq

/-- Empty ledger at process start. -/
def LedgerState.init : LedgerState := ⟨[], [], [], []⟩

/-! Association-list operations mirroring the semantics of a JS Map. -/

/-- Map.get: the value bound to a key, if any. -/
def mapFind (k : String) : List (String × α) → Option α
  | [] => none
  | (k₁, v) :: rest => if k₁ = k then some v else mapFind k rest

/-- Map.set: overwrite the binding for the key, or append a new one. -/
def mapSet (k : String) (v : α) : List (String × α) → List (String × α)
  | [] => [(k, v)]
  | (k₁, v₁) :: rest => if k₁ = k then (k, v) :: rest else (k₁, v₁) :: mapSet k v rest

/-- Map.delete: remove the binding for the key, if any. -/
def mapDelete (k : String) : List (String × α) → List (String × α)
  | [] => []
  | (k₁, v₁) :: rest => if k₁ = k then rest else (k₁, v₁) :: mapDelete k rest

/-! Momentum window (addTradeToMomentum / calculateMomentumMetrics). -/

/-- Queue entry of the per-ticker momentum window: the tick plus the local
timestamp at which it was recorded. -/
structure TimedTrade where
  trade : TradeUpdate
  timestamp : Int
deriving DecidableEq

/-- addTradeToMomentum: append the tick at the current time, then keep only
entries with timestamp strictly greater than now minus the window. -/
def addTradeToMomentum (windowSeconds : Int) (now : Int) (trade : TradeUpdate)
    (trades : List TimedTrade) : List TimedTrade :=
  let appended := trades ++ [⟨trade, now⟩]
  let cutoff := now - windowSeconds * 1000
  appended.filter (fun t => decide (cutoff < t.timestamp))

/-- Fold a sequence of feed ticks, each with its arrival time, into the
momentum queue by repeated addTradeToMomentum calls. -/
def recordAll (windowSeconds : Int) : List (TradeUpdate × Int) → List TimedTrade → List TimedTrade
  | [], q => q
  | (tr, t) :: rest, q => recordAll windowSeconds rest (addTradeToMomentum windowSeconds t tr q)

/-- calculateMomentumMetrics: null on an empty queue, otherwise the window
aggregates (volume sum, trade count, yes/no counts, bias, price change). -/
def calculateMomentumMetrics (trades : List TimedTrade) : Option MomentumMetrics :=
  if trades.isEmpty then none
  else
    let totalVolume := (trades.map (fun t => t.trade.count)).sum
    let yesCount := (trades.filter (fun t => decide (t.trade.taker_side = Side.yes))).length
    let noCount := (trades.filter (fun t => decide (t.trade.taker_side = Side.no))).length
    let tradeCount := trades.length
    let directionalBias := if 0 < tradeCount then (yesCount : ℚ) / tradeCount else (1 : ℚ)/2
    let firstPrice := ((trades.head?).map (fun t => t.trade.price)).getD 0
    let lastPrice := ((trades.getLast?).map (fun t => t.trade.price)).getD 0
    some ⟨totalVolume, tradeCount, yesCount, noCount, directionalBias, lastPrice - firstPrice⟩

/-! Signal evaluation (checkMomentum) and side selection (openPosition). -/

/-- Threshold test of checkMomentum applied to computed metrics. -/
def momentumThresholdsMet (cfg : Config) (m : MomentumMetrics) : Bool :=
  let volumeMet := decide (cfg.MOMENTUM_MIN_VOLUME ≤ m.totalVolume)
  let tradesMet := decide (cfg.MOMENTUM_MIN_TRADES ≤ m.tradeCount)
  let directionalMet := decide (cfg.MOMENTUM_MIN_DIRECTIONAL_BIAS ≤ m.directionalBias)
    || decide (m.directionalBias ≤ 1 - cfg.MOMENTUM_MIN_DIRECTIONAL_BIAS)
  volumeMet && tradesMet && directionalMet

/-- checkMomentum: false when the window is empty, otherwise the threshold test. -/
def checkMomentum (cfg : Config) (trades : List TimedTrade) : Bool :=
  match calculateMomentumMetrics trades with
  | none => false
  | some m => momentumThresholdsMet cfg m

/-- Side selection in openPosition: yes when directionalBias is at least 0.5. -/
def chooseSide (directionalBias : ℚ) : Side :=
  if (1 : ℚ)/2 ≤ directionalBias then Side.yes else Side.no

/-! Profit and loss (calculatePnL / calculatePnLPercentage). -/

/-- calculatePnL: P and L in cents for a position at the current price. -/
def calculatePnL (position : Position) (currentPrice : ℚ) : ℚ :=
  match position.side with
  | Side.yes => (currentPrice - position.entryPrice) * position.contracts
  | Side.no => (position.entryPrice - currentPrice) * position.contracts

/-- calculatePnLPercentage: P and L as a percentage of the entry price. -/
def calculatePnLPercentage (position : Position) (currentPrice : ℚ) : ℚ :=
  match position.side with
  | Side.yes => (currentPrice - position.entryPrice) / position.entryPrice * 100
  | Side.no => (position.entryPrice - currentPrice) / position.entryPrice * 100

/-- Price of the side held by the position out of a yes/no price pair, as selected
in checkPositions and closePositionManually. -/
def currentPriceFor (position : Position) (pr : Prices) : ℚ :=
  match position.side with
  | Side.yes => pr.yesPrice
  | Side.no => pr.noPrice

/-- Profit-target test of checkPositions: configured and pnlPercent at or
above PROFIT_TARGET times 100. -/
def profitTargetHit (cfg : Config) (pnlPercent : ℚ) : Bool :=
  match cfg.PROFIT_TARGET with
  | some pt => decide (pt * 100 ≤ pnlPercent)
  | none => false

/-- Stop-loss test of checkPositions: configured and pnlPercent at or below
minus STOP_LOSS times 100. -/
def stopLossHit (cfg : Config) (pnlPercent : ℚ) : Bool :=
  match cfg.STOP_LOSS with
  | some sl => decide (pnlPercent ≤ -(sl * 100))
  | none => false

/-! Ledger operations. -/

/-- Shared close block of the primary variant: push the closed trade, delete
the position and its entry metrics, and always record a cooldown entry. -/
def applyClose (ticker : String) (ct : ClosedTrade) (now : Int) (wasWin : Bool)
    (s : LedgerState) : LedgerState :=
  { s with
    closedTrades := s.closedTrades ++ [ct]
    positions := mapDelete ticker s.positions
    positionMomentumMetrics := mapDelete ticker s.positionMomentumMetrics
    tickerCooldowns := mapSet ticker ⟨now, wasWin⟩ s.tickerCooldowns }

/-- Entry price taken from the triggering tick: the price of the side
selected from the directional bias. -/
def entryPriceFor (trade : TradeUpdate) (metrics : MomentumMetrics) : ℚ :=
  match chooseSide metrics.directionalBias with
  | Side.yes => trade.yes_price
  | Side.no => trade.no_price

/-- Position size: floor of the fixed dollar stake times 100 over the entry
price in cents. -/
def contractsFor (cfg : Config) (trade : TradeUpdate) (metrics : MomentumMetrics) : Int :=
  ⌊cfg.POSITION_SIZE_DOLLARS * 100 / entryPriceFor trade metrics⌋

/-- Sizing and insertion tail of openPosition: pick the side from the bias,
take the price of that side from the triggering tick, size the position as
floor(dollars times 100 over entry price), rejecting when contracts is not
positive, and otherwise record the new position and its entry metrics. -/
def openPositionSized (cfg : Config) (now : Int) (trade : TradeUpdate)
    (metrics : MomentumMetrics) (s : LedgerState) : LedgerState :=
  let ticker := trade.market_ticker
  let side := chooseSide metrics.directionalBias
  let entryPrice := entryPriceFor trade metrics
  let contracts : Int := contractsFor cfg trade metrics
  if contracts ≤ 0 then s
  else
    { s with
      positions := mapSet ticker ⟨ticker, side, entryPrice, contracts, now, trade.trade_id, none⟩ s.positions
      positionMomentumMetrics := mapSet ticker metrics s.positionMomentumMetrics }

/-- openPosition of the primary variant (paper path): reject when the ticker
already has a position, when the cap is reached, or when an unexpired
cooldown exists (always enforced, regardless of the win and loss flags); an
expired cooldown entry is deleted before sizing. -/
def openPosition (cfg : Config) (now : Int) (trade : TradeUpdate)
    (metrics : MomentumMetrics) (s : LedgerState) : LedgerState :=
  let ticker := trade.market_ticker
  if (mapFind ticker s.positions).isSome then s
  else if cfg.MAX_OPEN_POSITIONS ≤ s.positions.length then s
  else
    match mapFind ticker s.tickerCooldowns with
    | some cooldown =>
      if now - cooldown.timestamp < cfg.COOLDOWN_TIME_MS then s
      else
        openPositionSized cfg now trade metrics
          { s with tickerCooldowns := mapDelete ticker s.tickerCooldowns }
    | none => openPositionSized cfg now trade metrics s

/-- Loop body of checkPositions in the primary variant (paper path) for one
ticker: force-close on stale data past the maximum age, close on profit
target or stop loss (profit target tested first), otherwise update only the
last-logged P and L watermark when it moved by at least half a percent. -/
def checkTicker (cfg : Config) (now : Int) (prices : Option Prices)
    (ticker : String) (s : LedgerState) : LedgerState :=
  match mapFind ticker s.positions with
  | none => s
  | some position =>
    let positionAge := now - position.entryTime
    match prices with
    | none =>
      if cfg.MAX_POSITION_AGE_MS < positionAge then
        let ct : ClosedTrade :=
          { ticker := ticker
            side := position.side
            entryPrice := position.entryPrice
            exitPrice := position.entryPrice
            entryTime := position.entryTime
            exitTime := now
            duration := (positionAge : ℚ) / 1000
            pnl := 0
            pnlPercent := 0
            reason := CloseReason.staleData cfg.MAX_POSITION_AGE_MS
            momentumMetrics := mapFind ticker s.positionMomentumMetrics }
        applyClose ticker ct now false s
      else s
    | some pr =>
      let currentPrice := currentPriceFor position pr
      let pnl := calculatePnL position currentPrice
      let pnlPercent := calculatePnLPercentage position currentPrice
      if profitTargetHit cfg pnlPercent || stopLossHit cfg pnlPercent then
        let reason := if profitTargetHit cfg pnlPercent
          then CloseReason.profitTarget pnlPercent
          else CloseReason.stopLoss pnlPercent
        let ct : ClosedTrade :=
          { ticker := ticker
            side := position.side
            entryPrice := position.entryPrice
            exitPrice := currentPrice
            entryTime := position.entryTime
            exitTime := now
            duration := ((now - position.entryTime : Int) : ℚ) / 1000
            pnl := pnl / 100
            pnlPercent := pnlPercent
            reason := reason
            momentumMetrics := mapFind ticker s.positionMomentumMetrics }
        applyClose ticker ct now (decide (0 < pnl)) s
      else
        let lastLogged := position.lastLoggedPnLPercent.getD pnlPercent
        if (1 : ℚ)/2 ≤ |pnlPercent - lastLogged| then
          { s with positions :=
              mapSet ticker { position with lastLoggedPnLPercent := some pnlPercent } s.positions }
        else s

/-- closePositionManually of the primary variant (paper path): close at the
current price with the given reason; fails when the position is missing or
no price is available. Returns the new state and the success flag. -/
def closePositionManually (now : Int) (prices : Option Prices) (reasonText : String)
    (ticker : String) (s : LedgerState) : LedgerState × Bool :=
  match mapFind ticker s.positions with
  | none => (s, false)
  | some position =>
    match prices with
    | none => (s, false)
    | some pr =>
      let currentPrice := currentPriceFor position pr
      let pnl := calculatePnL position currentPrice
      let pnlPercent := calculatePnLPercentage position currentPrice
      let ct : ClosedTrade :=
        { ticker := ticker
          side := position.side
          entryPrice := position.entryPrice
          exitPrice := currentPrice
          entryTime := position.entryTime
          exitTime := now
          duration := ((now - position.entryTime : Int) : ℚ) / 1000
          pnl := pnl / 100
          pnlPercent := pnlPercent
          reason := CloseReason.manual reasonText
          momentumMetrics := mapFind ticker s.positionMomentumMetrics }
      (applyClose ticker ct now (decide (0 < pnl)) s, true)

/-- Loop body of checkPositions in the legacy variant for one ticker: the
same exit rules, but cooldown recording is gated on the win and loss
cooldown enable flags (force-close records only when loss cooldown is on). -/
def checkTickerLegacy (cfg : Config) (now : Int) (prices : Option Prices)
    (ticker : String) (s : LedgerState) : LedgerState :=
  match mapFind ticker s.positions with
  | none => s
  | some position =>
    let positionAge := now - position.entryTime
    match prices with
    | none =>
      if cfg.MAX_POSITION_AGE_MS < positionAge then
        let ct : ClosedTrade :=
          { ticker := ticker
            side := position.side
            entryPrice := position.entryPrice
            exitPrice := position.entryPrice
            entryTime := position.entryTime
            exitTime := now
            duration := (positionAge : ℚ) / 1000
            pnl := 0
            pnlPercent := 0
            reason := CloseReason.staleData cfg.MAX_POSITION_AGE_MS
            momentumMetrics := mapFind ticker s.positionMomentumMetrics }
        { s with
          closedTrades := s.closedTrades ++ [ct]
          positions := mapDelete ticker s.positions
          positionMomentumMetrics := mapDelete ticker s.positionMomentumMetrics
          tickerCooldowns :=
            if cfg.LOSS_COOLDOWN_ENABLED
            then mapSet ticker ⟨now, false⟩ s.tickerCooldowns
            else s.tickerCooldowns }
      else s
    | some pr =>
      let currentPrice := currentPriceFor position pr
      let pnl := calculatePnL position currentPrice
      let pnlPercent := calculatePnLPercentage position currentPrice
      if profitTargetHit cfg pnlPercent || stopLossHit cfg pnlPercent then
        let reason := if profitTargetHit cfg pnlPercent
          then CloseReason.profitTarget pnlPercent
          else CloseReason.stopLoss pnlPercent
        let ct : ClosedTrade :=
          { ticker := ticker
            side := position.side
            entryPrice := position.entryPrice
            exitPrice := currentPrice
            entryTime := position.entryTime
            exitTime := now
            duration := ((now - position.entryTime : Int) : ℚ) / 1000
            pnl := pnl / 100
            pnlPercent := pnlPercent
            reason := reason
            momentumMetrics := mapFind ticker s.positionMomentumMetrics }
        let wasWin := decide (0 < pnl)
        { s with
          closedTrades := s.closedTrades ++ [ct]
          positions := mapDelete ticker s.positions
          positionMomentumMetrics := mapDelete ticker s.positionMomentumMetrics
          tickerCooldowns :=
            if (wasWin && cfg.WIN_COOLDOWN_ENABLED) || (!wasWin && cfg.LOSS_COOLDOWN_ENABLED)
            then mapSet ticker ⟨now, wasWin⟩ s.tickerCooldowns
            else s.tickerCooldowns }
      else
        let lastLogged := position.lastLoggedPnLPercent.getD pnlPercent
        if (1 : ℚ)/2 ≤ |pnlPercent - lastLogged| then
          { s with positions :=
              mapSet ticker { position with lastLoggedPnLPercent := some pnlPercent } s.positions }
        else s

/-! Mid-price derivation (getCurrentPrice) over an abstract metadata fetch. -/

/-- Nullable best bid and ask quotes of a fetched market, already parsed. -/
structure MarketQuotes where
  yesBid : Option ℚ
  yesAsk : Option ℚ
  noBid : Option ℚ
  noAsk : Option ℚ
deriving DecidableEq

/-- Price of one side in cents: average of bid and ask when both exist,
whichever exists otherwise, null when neither does. -/
def midPriceOfQuotes (bid ask : Option ℚ) : Option ℚ :=
  match bid, ask with
  | some b, some a => some ((b * 100 + a * 100) / 2)
  | some b, none => some (b * 100)
  | none, some a => some (a * 100)
  | none, none => none

/-- Combine the two sides: null when either side has no quotes at all. -/
def combineQuotes (m : MarketQuotes) : Option Prices :=
  match midPriceOfQuotes m.yesBid m.yesAsk, midPriceOfQuotes m.noBid m.noAsk with
  | some y, some n => some ⟨y, n⟩
  | _, _ => none

/-- getCurrentPrice: fetch the market (skipCache false), retrying once with
skipCache true only when the first fetch fails; then derive mid prices.
Returns the result together with the list of skipCache flags of the fetch
calls actually performed. -/
def getCurrentPrice (fetchResult : Bool → Option MarketQuotes) :
    Option Prices × List Bool :=
  match fetchResult false with
  | some m => (combineQuotes m, [false])
  | none =>
    match fetchResult true with
    | some m => (combineQuotes m, [false, true])
    | none => (none, [false, true])

/-! Metrics aggregation (getMetrics). -/

/-- Profit factor: a rational, or infinite (wins with zero losses). -/
inductive ProfitFactor
  | val (q : ℚ)
  | inf
deriving DecidableEq

/-- Performance metrics returned by getMetrics. -/
structure Metrics where
  totalTrades : Nat
  winningTrades : Nat
  losingTrades : Nat
  totalPnL : ℚ
  winRate : ℚ
  avgWin : ℚ
  avgLoss : ℚ
  profitFactor : ProfitFactor
  largestWin : ℚ
  largestLoss : ℚ
deriving DecidableEq

/-- Math.max over a spread list, as used for largestWin (0 when empty by the
guarding length check in the source). -/
def maxD : List ℚ → ℚ
  | [] => 0
  | x :: xs => xs.foldl max x

/-- Math.min over a spread list, as used for largestLoss. -/
def minD : List ℚ → ℚ
  | [] => 0
  | x :: xs => xs.foldl min x

/-- getMetrics: pure reducer over the closed-trade history. -/
def getMetrics (closedTrades : List ClosedTrade) : Metrics :=
  if closedTrades.isEmpty then
    ⟨0, 0, 0, 0, 0, 0, 0, ProfitFactor.val 0, 0, 0⟩
  else
    let wins := closedTrades.filter (fun t => decide (0 < t.pnl))
    let losses := closedTrades.filter (fun t => decide (t.pnl < 0))
    let totalPnL := (closedTrades.map (fun t => t.pnl)).sum
    let totalWins := (wins.map (fun t => t.pnl)).sum
    let totalLosses := |(losses.map (fun t => t.pnl)).sum|
    { totalTrades := closedTrades.length
      winningTrades := wins.length
      losingTrades := losses.length
      totalPnL := totalPnL
      winRate := (wins.length : ℚ) / closedTrades.length * 100
      avgWin := if 0 < wins.length then totalWins / wins.length else 0
      avgLoss := if 0 < losses.length then totalLosses / losses.length else 0
      profitFactor :=
        if 0 < totalLosses then ProfitFactor.val (totalWins / totalLosses)
        else if 0 < totalWins then ProfitFactor.inf
        else ProfitFactor.val 0
      largestWin := maxD (wins.map (fun t => t.pnl))
      largestLoss := minD (losses.map (fun t => t.pnl)) }

/-! Event-loop steps and reachable ledger states. -/

/-- One serialized mutation of the ledger: an open attempt, one exit-monitor
iteration for some ticker, or a manual close request. -/
inductive LedgerStep (cfg : Config) : LedgerState → LedgerState → Prop
  | openStep (now : Int) (trade : TradeUpdate) (metrics : MomentumMetrics) (s : LedgerState) :
      LedgerStep cfg s (openPosition cfg now trade metrics s)
  | checkStep (now : Int) (prices : Option Prices) (ticker : String) (s : LedgerState) :
      LedgerStep cfg s (checkTicker cfg now prices ticker s)
  | manualStep (now : Int) (prices : Option Prices) (reasonText ticker : String) (s : LedgerState) :
      LedgerStep cfg s (closePositionManually now prices reasonText ticker s).1

/-- Ledger states reachable from the empty initial state by any interleaving
of opens, exit checks and manual closes. -/
inductive Reachable (cfg : Config) : LedgerState → Prop
  | init : Reachable cfg LedgerState.init
  | step {s t : LedgerState} : Reachable cfg s → LedgerStep cfg s t → Reachable cfg t

/-! Concrete fixtures used to exercise the theorems on explicit inputs. -/

/-- Default configuration of the bot with a 2.5 percent profit target and a
12 percent stop loss. -/
def cfgW : Config :=
  { POSITION_SIZE_DOLLARS := 1
    MAX_OPEN_POSITIONS := 10
    PROFIT_TARGET := some (1/40)
    STOP_LOSS := some (3/25)
    MAX_POSITION_AGE_MS := 300000
    COOLDOWN_TIME_MS := 60000
    LOSS_COOLDOWN_ENABLED := true
    WIN_COOLDOWN_ENABLED := false
    MOMENTUM_MIN_VOLUME := 500
    MOMENTUM_MIN_TRADES := 5
    MOMENTUM_MIN_DIRECTIONAL_BIAS := 7/10 }

/-- Sample feed tick on ticker T priced at 10 cents on the yes side. -/
def tradeW : TradeUpdate :=
  { market_ticker := "T"
    trade_id := "t1"
    price := 10
    count := 120
    yes_price := 10
    no_price := 90
    taker_side := Side.yes
    created_time := 0 }

/-- Sample momentum metrics: strong yes bias over five trades. -/
def metricsW : MomentumMetrics :=
  { totalVolume := 520
    tradeCount := 5
    yesCount := 4
    noCount := 1
    directionalBias := 4/5
    priceChange := 2 }

/-- Sample open position on ticker T: yes side, entry 10 cents, 10 contracts. -/
def posW : Position :=
  { ticker := "T"
    side := Side.yes
    entryPrice := 10
    contracts := 10
    entryTime := 0
    entryTradeId := "t1"
    lastLoggedPnLPercent := none }

/-- Ledger holding exactly the sample position on T. -/
def sW : LedgerState := ⟨[("T", posW)], [], [], []⟩

/-- Current prices: yes side has doubled to 20 cents. -/
def prW : Prices := ⟨20, 80⟩

/-- Current prices: yes side barely moved, to 10.1 cents. -/
def prFlat : Prices := ⟨101/10, 80⟩

/-- Sample stale position on ticker S: no price data, aged past the limit. -/
def posStale : Position :=
  { ticker := "S"
    side := Side.no
    entryPrice := 40
    contracts := 2
    entryTime := 0
    entryTradeId := "t9"
    lastLoggedPnLPercent := none }

/-- Ledger holding exactly the stale position on S. -/
def sStale : LedgerState := ⟨[("S", posStale)], [], [], []⟩

/-- Configuration with a 50 cent stake, making high entry prices unsizable. -/
def cfgSmall : Config := { cfgW with POSITION_SIZE_DOLLARS := 1/2 }

/-- Tick whose yes price of 60 cents exceeds what a 50 cent stake can buy. -/
def tradeHigh : TradeUpdate := { tradeW with yes_price := 60, no_price := 40 }

/-- Ledger with no positions and one expired cooldown entry on ticker T. -/
def sCD : LedgerState := ⟨[], [], [], [("T", ⟨0, false⟩)]⟩

/-- Two feed arrivals of the sample tick, 50 seconds apart. -/
def entriesW : List (TradeUpdate × Int) := [(tradeW, 0), (tradeW, 50000)]

/-- Two feed arrivals of the sample tick, exactly one window apart. -/
def entriesB : List (TradeUpdate × Int) := [(tradeW, 0), (tradeW, 60000)]

/-- Market metadata with no bid or ask quotes on either side. -/
def quotesEmpty : MarketQuotes := ⟨none, none, none, none⟩

/-- Closed sample trade with a 5 dollar profit. -/
def ctWin : ClosedTrade :=
  { ticker := "T"
    side := Side.yes
    entryPrice := 10
    exitPrice := 60
    entryTime := 0
    exitTime := 1000
    duration := 1
    pnl := 5
    pnlPercent := 500
    reason := CloseReason.profitTarget 500
    momentumMetrics := none }

/-- Closed sample trade with a 2 dollar loss. -/
def ctLoss : ClosedTrade :=
  { ticker := "U"
    side := Side.no
    entryPrice := 50
    exitPrice := 70
    entryTime := 0
    exitTime := 2000
    duration := 2
    pnl := -2
    pnlPercent := -40
    reason := CloseReason.stopLoss (-40)
    momentumMetrics := none }

/-- Closed-trade history holding one win and one loss. -/
def trades10 : List ClosedTrade := [ctWin, ctLoss]

/-! Lemmas about the association-list map operations. -/

theorem mapFind_eq_none_iff {α : Type} (k : String) (m : List (String × α)) :
    mapFind k m = none ↔ k ∉ m.map Prod.fst := by
  induction m with
  | nil => simp [mapFind]
  | cons p rest ih =>
    obtain ⟨k₁, v⟩ := p
    rcases eq_or_ne k₁ k with h | h
    · subst h
      simp [mapFind]
    · simp [mapFind, h, ih, Ne.symm h]

theorem mem_keys_of_mapFind_eq_some {α : Type} {k : String} {v : α} {m : List (String × α)}
    (h : mapFind k m = some v) : k ∈ m.map Prod.fst := by
  by_contra hk
  rw [← mapFind_eq_none_iff k m] at hk
  rw [h] at hk
  exact Option.noConfusion hk

theorem keys_mapSet {α : Type} (k : String) (v : α) (m : List (String × α)) :
    (mapSet k v m).map Prod.fst =
      if k ∈ m.map Prod.fst then m.map Prod.fst else m.map Prod.fst ++ [k] := by
  induction m with
  | nil => simp [mapSet]
  | cons p rest ih =>
    obtain ⟨k₁, v₁⟩ := p
    rcases eq_or_ne k₁ k with h | h
    · subst h
      simp [mapSet]
    · by_cases hk : k ∈ rest.map Prod.fst
      · simp [mapSet, h, ih, hk, Ne.symm h]
      · simp [mapSet, h, ih, hk, Ne.symm h]

theorem length_mapSet {α : Type} (k : String) (v : α) (m : List (String × α)) :
    (mapSet k v m).length =
      if k ∈ m.map Prod.fst then m.length else m.length + 1 := by
  have h1 : (mapSet k v m).length = ((mapSet k v m).map Prod.fst).length :=
    (List.length_map _ _).symm
  rw [h1, keys_mapSet]
  split <;> simp

theorem nodup_keys_mapSet {α : Type} {k : String} {v : α} {m : List (String × α)}
    (h : (m.map Prod.fst).Nodup) : ((mapSet k v m).map Prod.fst).Nodup := by
  rw [keys_mapSet]
  by_cases hk : k ∈ m.map Prod.fst
  · simpa [hk] using h
  · simp [hk, List.nodup_append, h]

theorem mapDelete_sublist {α : Type} (k : String) (m : List (String × α)) :
    (mapDelete k m).Sublist m := by
  induction m with
  | nil => simp [mapDelete]
  | cons p rest ih =>
    obtain ⟨k₁, v₁⟩ := p
    by_cases h : k₁ = k
    · simp only [mapDelete, if_pos h]
      exact List.sublist_cons_self (k₁, v₁) rest
    · simp only [mapDelete, if_neg h]
      exact ih.cons₂ (k₁, v₁)

theorem mapFind_mapSet_self {α : Type} (k : String) (v : α) (m : List (String × α)) :
    mapFind k (mapSet k v m) = some v := by
  induction m with
  | nil => simp [mapSet, mapFind]
  | cons p rest ih =>
    obtain ⟨k₁, v₁⟩ := p
    rcases eq_or_ne k₁ k with h | h
    · subst h
      simp [mapSet, mapFind]
    · simp [mapSet, mapFind, h, ih]

theorem mapFind_mapDelete_self {α : Type} {k : String} {m : List (String × α)}
    (h : (m.map Prod.fst).Nodup) : mapFind k (mapDelete k m) = none := by
  induction m with
  | nil => simp [mapDelete, mapFind]
  | cons p rest ih =>
    obtain ⟨k₁, v₁⟩ := p
    simp only [List.map_cons, List.nodup_cons] at h
    rcases eq_or_ne k₁ k with hk | hk
    · subst hk
      rw [mapFind_eq_none_iff]
      simpa [mapDelete] using h.1
    · simp [mapDelete, mapFind, hk, ih h.2]

/-! Preservation of the core ledger invariant: ticker keys of the positions
map are pairwise distinct, and the number of open positions stays within
MAX_OPEN_POSITIONS. -/

/-- The two bounds of the core invariant. -/
def LedgerInvariant (cfg : Config) (s : LedgerState) : Prop :=
  (s.positions.map Prod.fst).Nodup ∧ s.positions.length ≤ cfg.MAX_OPEN_POSITIONS

theorem ledgerInvariant_openPositionSized (cfg : Config) (now : Int) (trade : TradeUpdate)
    (metrics : MomentumMetrics) (s : LedgerState)
    (hnodup : (s.positions.map Prod.fst).Nodup)
    (hfind : mapFind trade.market_ticker s.positions = none)
    (hlen : s.positions.length < cfg.MAX_OPEN_POSITIONS) :
    LedgerInvariant cfg (openPositionSized cfg now trade metrics s) := by
  simp only [openPositionSized]
  split
  · exact ⟨hnodup, hlen.le⟩
  · refine ⟨nodup_keys_mapSet hnodup, ?_⟩
    show (mapSet trade.market_ticker _ s.positions).length ≤ _
    rw [length_mapSet]
    have hmem : trade.market_ticker ∉ s.positions.map Prod.fst :=
      (mapFind_eq_none_iff _ _).mp hfind
    simpa [hmem] using hlen

theorem ledgerInvariant_openPosition (cfg : Config) (now : Int) (trade : TradeUpdate)
    (metrics : MomentumMetrics) (s : LedgerState) (h : LedgerInvariant cfg s) :
    LedgerInvariant cfg (openPosition cfg now trade metrics s) := by
  obtain ⟨hnodup, hlen⟩ := h
  simp only [openPosition]
  split
  · exact ⟨hnodup, hlen⟩
  · split
    · exact ⟨hnodup, hlen⟩
    · rename_i h1 h2
      have hfind : mapFind trade.market_ticker s.positions = none :=
        Option.not_isSome_iff_eq_none.mp (by simpa using h1)
      have hlt : s.positions.length < cfg.MAX_OPEN_POSITIONS := lt_of_not_le h2
      split
      · split
        · exact ⟨hnodup, hlen⟩
        · exact ledgerInvariant_openPositionSized cfg now trade metrics _ hnodup hfind hlt
      · exact ledgerInvariant_openPositionSized cfg now trade metrics s hnodup hfind hlt

theorem ledgerInvariant_applyClose (cfg : Config) (ticker : String) (ct : ClosedTrade)
    (now : Int) (wasWin : Bool) (s : LedgerState) (h : LedgerInvariant cfg s) :
    LedgerInvariant cfg (applyClose ticker ct now wasWin s) := by
  obtain ⟨hnodup, hlen⟩ := h
  have hsub := mapDelete_sublist ticker s.positions
  exact ⟨(hsub.map Prod.fst).nodup hnodup, le_trans hsub.length_le hlen⟩

theorem ledgerInvariant_checkTicker (cfg : Config) (now : Int) (prices : Option Prices)
    (ticker : String) (s : LedgerState) (h : LedgerInvariant cfg s) :
    LedgerInvariant cfg (checkTicker cfg now prices ticker s) := by
  obtain ⟨hnodup, hlen⟩ := h
  simp only [checkTicker]
  split
  · exact ⟨hnodup, hlen⟩
  · rename_i position hfind
    have hmem : ticker ∈ s.positions.map Prod.fst := mem_keys_of_mapFind_eq_some hfind
    split
    · split
      · exact ledgerInvariant_applyClose cfg ticker _ now false s ⟨hnodup, hlen⟩
      · exact ⟨hnodup, hlen⟩
    · split
      · exact ledgerInvariant_applyClose cfg ticker _ now _ s ⟨hnodup, hlen⟩
      · split
        · refine ⟨nodup_keys_mapSet hnodup, ?_⟩
          show (mapSet ticker _ s.positions).length ≤ _
          rw [length_mapSet]
          simpa [hmem] using hlen
        · exact ⟨hnodup, hlen⟩

theorem ledgerInvariant_closePositionManually (cfg : Config) (now : Int)
    (prices : Option Prices) (reasonText ticker : String) (s : LedgerState)
    (h : LedgerInvariant cfg s) :
    LedgerInvariant cfg (closePositionManually now prices reasonText ticker s).1 := by
  simp only [closePositionManually]
  split
  · exact h
  · split
    · exact h
    · exact ledgerInvariant_applyClose cfg ticker _ now _ s h

/-- The profit-target test holds exactly when a target is configured and
pnlPercent is at or above it (scaled to percent). -/
theorem profitTargetHit_iff (cfg : Config) (pnlPercent : ℚ) :
    profitTargetHit cfg pnlPercent = true ↔
      ∃ pt, cfg.PROFIT_TARGET = some pt ∧ pt * 100 ≤ pnlPercent := by
  cases h : cfg.PROFIT_TARGET <;> simp [profitTargetHit, h]

/-- The stop-loss test holds exactly when a stop is configured and
pnlPercent is at or below its negation (scaled to percent). -/
theorem stopLossHit_iff (cfg : Config) (pnlPercent : ℚ) :
    stopLossHit cfg pnlPercent = true ↔
      ∃ sl, cfg.STOP_LOSS = some sl ∧ pnlPercent ≤ -(sl * 100) := by
  cases h : cfg.STOP_LOSS <;> simp [stopLossHit, h]

/-- C2: at every reachable ledger state each instrument has at most one open
position (the ticker keys of the positions map are pairwise distinct) and
the number of open positions never exceeds MAX_OPEN_POSITIONS; reachability
covers arbitrary interleavings of open attempts, exit-monitor iterations
and manual closes. -/
theorem claim_C2_position_bounds (cfg : Config) (s : LedgerState)
    (h : Reachable cfg s) :
    (s.positions.map Prod.fst).Nodup ∧
      s.positions.length ≤ cfg.MAX_OPEN_POSITIONS := by
  induction h with
  | init => exact ⟨List.nodup_nil, by simp [LedgerState.init]⟩
  | step hr hstep ih =>
    cases hstep with
    | openStep now trade metrics s₁ =>
      exact ledgerInvariant_openPosition _ _ _ _ _ ih
    | checkStep now prices ticker s₁ =>
      exact ledgerInvariant_checkTicker _ _ _ _ _ ih
    | manualStep now prices reasonText ticker s₁ =>
      exact ledgerInvariant_closePositionManually _ _ _ _ _ _ ih

/-- Witness for C2 at a concrete reachable state: the ledger obtained by one
open attempt from the empty initial state. -/
theorem claim_C2_position_bounds_witness :
    (((openPosition cfgW 0 tradeW metricsW LedgerState.init).positions.map Prod.fst).Nodup ∧
      (openPosition cfgW 0 tradeW metricsW LedgerState.init).positions.length ≤
        cfgW.MAX_OPEN_POSITIONS) :=
  claim_C2_position_bounds cfgW _
    (Reachable.step Reachable.init (LedgerStep.openStep 0 tradeW metricsW LedgerState.init))

/-- C3: the momentum signal triggers exactly when all three thresholds hold,
each inclusive at its boundary (volume, trade count, and the symmetric
two-sided bias test), and the selected side is yes exactly when the
directional bias is at least one half (tie at one half goes to yes). -/
theorem claim_C3_trigger_and_side (cfg : Config) (m : MomentumMetrics) :
    (momentumThresholdsMet cfg m = true ↔
      (cfg.MOMENTUM_MIN_VOLUME ≤ m.totalVolume ∧
       cfg.MOMENTUM_MIN_TRADES ≤ m.tradeCount ∧
       (cfg.MOMENTUM_MIN_DIRECTIONAL_BIAS ≤ m.directionalBias ∨
        m.directionalBias ≤ 1 - cfg.MOMENTUM_MIN_DIRECTIONAL_BIAS))) ∧
    (chooseSide m.directionalBias = Side.yes ↔ (1 : ℚ)/2 ≤ m.directionalBias) := by
  constructor
  · simp [momentumThresholdsMet, and_assoc]
  · unfold chooseSide
    split
    · rename_i hle
      simpa using hle
    · rename_i hlt
      simpa using lt_of_not_le hlt

/-- Concrete evaluation: the sample position doubled, so pnlPercent is 100. -/
theorem pnlPercent_posW_prW : calculatePnLPercentage posW (currentPriceFor posW prW) = 100 := by
  norm_num [calculatePnLPercentage, currentPriceFor, posW, prW]

/-- Concrete evaluation: the sample position doubled, so pnl is 100 cents. -/
theorem pnlCents_posW_prW : calculatePnL posW (currentPriceFor posW prW) = 100 := by
  norm_num [calculatePnL, currentPriceFor, posW, prW]

/-- Concrete evaluation: a 100 percent gain crosses the 2.5 percent target. -/
theorem profitTargetHit_cfgW_100 : profitTargetHit cfgW 100 = true := by
  norm_num [profitTargetHit, cfgW]

/-- Concrete evaluation: a 1 percent gain does not cross the 2.5 percent target. -/
theorem profitTargetHit_cfgW_1 : profitTargetHit cfgW 1 = false := by
  norm_num [profitTargetHit, cfgW]

/-- Concrete evaluation: a 1 percent gain does not cross the 12 percent stop. -/
theorem stopLossHit_cfgW_1 : stopLossHit cfgW 1 = false := by
  norm_num [stopLossHit, cfgW]

/-- Concrete evaluation: the barely-moved price gives pnlPercent of 1. -/
theorem pnlPercent_posW_prFlat : calculatePnLPercentage posW (currentPriceFor posW prFlat) = 1 := by
  norm_num [calculatePnLPercentage, currentPriceFor, posW, prFlat]

/-- C5: with a price available, the exit check closes the position exactly
when pnlPercent reaches the configured profit target (scaled to percent) or
falls to the configured stop loss; the profit target is evaluated first, so
its reason is recorded whenever it fires, the stop-loss reason is recorded
when only the stop fires, and no trade is appended when neither fires. -/
theorem claim_C5_exit_rules (cfg : Config) (now : Int) (pr : Prices) (ticker : String)
    (s : LedgerState) (position : Position) (pnlPercent : ℚ)
    (hfind : mapFind ticker s.positions = some position)
    (hnodup : (s.positions.map Prod.fst).Nodup)
    (hpnl : pnlPercent = calculatePnLPercentage position (currentPriceFor position pr)) :
    ((mapFind ticker (checkTicker cfg now (some pr) ticker s).positions = none) ↔
      ((∃ pt, cfg.PROFIT_TARGET = some pt ∧ pt * 100 ≤ pnlPercent) ∨
       (∃ sl, cfg.STOP_LOSS = some sl ∧ pnlPercent ≤ -(sl * 100)))) ∧
    ((∃ pt, cfg.PROFIT_TARGET = some pt ∧ pt * 100 ≤ pnlPercent) →
      (checkTicker cfg now (some pr) ticker s).closedTrades.map (fun t => t.reason) =
        s.closedTrades.map (fun t => t.reason) ++ [CloseReason.profitTarget pnlPercent]) ∧
    (¬(∃ pt, cfg.PROFIT_TARGET = some pt ∧ pt * 100 ≤ pnlPercent) →
      (∃ sl, cfg.STOP_LOSS = some sl ∧ pnlPercent ≤ -(sl * 100)) →
      (checkTicker cfg now (some pr) ticker s).closedTrades.map (fun t => t.reason) =
        s.closedTrades.map (fun t => t.reason) ++ [CloseReason.stopLoss pnlPercent]) ∧
    (¬(∃ pt, cfg.PROFIT_TARGET = some pt ∧ pt * 100 ≤ pnlPercent) →
      ¬(∃ sl, cfg.STOP_LOSS = some sl ∧ pnlPercent ≤ -(sl * 100)) →
      (checkTicker cfg now (some pr) ticker s).closedTrades = s.closedTrades) := by
  subst hpnl
  by_cases hp :
      profitTargetHit cfg (calculatePnLPercentage position (currentPriceFor position pr)) = true
  · refine ⟨⟨fun _ => Or.inl ((profitTargetHit_iff _ _).mp hp), fun _ => ?_⟩,
      fun _ => ?_,
      fun hnpt _ => absurd ((profitTargetHit_iff _ _).mp hp) hnpt,
      fun hnpt _ => absurd ((profitTargetHit_iff _ _).mp hp) hnpt⟩
    · simp only [checkTicker, hfind, hp, Bool.true_or, if_true, applyClose]
      exact mapFind_mapDelete_self hnodup
    · simp [checkTicker, hfind, hp, applyClose]
  · by_cases hs :
        stopLossHit cfg (calculatePnLPercentage position (currentPriceFor position pr)) = true
    · refine ⟨⟨fun _ => Or.inr ((stopLossHit_iff _ _).mp hs), fun _ => ?_⟩,
        fun hpt => absurd ((profitTargetHit_iff _ _).mpr hpt) hp,
        fun _ _ => ?_,
        fun _ hnsl => absurd ((stopLossHit_iff _ _).mp hs) hnsl⟩
      · have hp₀ : profitTargetHit cfg
            (calculatePnLPercentage position (currentPriceFor position pr)) = false :=
          Bool.not_eq_true _ |>.mp hp
        simp only [checkTicker, hfind, hp₀, hs, Bool.false_or, if_true, applyClose]
        exact mapFind_mapDelete_self hnodup
      · have hp₀ : profitTargetHit cfg
            (calculatePnLPercentage position (currentPriceFor position pr)) = false :=
          Bool.not_eq_true _ |>.mp hp
        simp [checkTicker, hfind, hp₀, hs, applyClose]
    · have hp₀ : profitTargetHit cfg
          (calculatePnLPercentage position (currentPriceFor position pr)) = false :=
        Bool.not_eq_true _ |>.mp hp
      have hs₀ : stopLossHit cfg
          (calculatePnLPercentage position (currentPriceFor position pr)) = false :=
        Bool.not_eq_true _ |>.mp hs
      refine ⟨⟨fun habs => ?_, fun hor => ?_⟩,
        fun hpt => absurd ((profitTargetHit_iff _ _).mpr hpt) hp,
        fun _ hsl => absurd ((stopLossHit_iff _ _).mpr hsl) hs,
        fun _ _ => ?_⟩
      · exfalso
        simp only [checkTicker, hfind, hp₀, hs₀, Bool.or_self, Bool.false_eq_true,
          if_false] at habs
        split at habs
        · rw [mapFind_mapSet_self] at habs
          exact Option.noConfusion habs
        · rw [hfind] at habs
          exact Option.noConfusion habs
      · rcases hor with hpt | hsl
        · exact absurd ((profitTargetHit_iff _ _).mpr hpt) hp
        · exact absurd ((stopLossHit_iff _ _).mpr hsl) hs
      · simp only [checkTicker, hfind, hp₀, hs₀, Bool.or_self, Bool.false_eq_true, if_false]
        split <;> rfl

/-- Witness for C5 at a concrete input: the sample position at doubled price
crosses the 2.5 percent profit target, the position is removed, and the
recorded reason cites the profit target with the computed pnlPercent. -/
theorem claim_C5_exit_rules_witness :
    mapFind "T" (checkTicker cfgW 1000 (some prW) "T" sW).positions = none ∧
    (checkTicker cfgW 1000 (some prW) "T" sW).closedTrades.map (fun t => t.reason) =
      [CloseReason.profitTarget 100] := by
  have h := claim_C5_exit_rules cfgW 1000 prW "T" sW posW 100 rfl
    (by simp [sW]) pnlPercent_posW_prW.symm
  refine ⟨h.1.mpr (Or.inl ⟨1/40, rfl, by norm_num⟩), ?_⟩
  have h2 := h.2.1 ⟨1/40, rfl, by norm_num⟩
  simpa [sW] using h2

/-- C6: on an exit-monitor cycle with no price available, a position older
than the maximum age is force-closed at its entry price with zero pnl and
zero pnlPercent and a staleness reason, while a position at or below the
maximum age leaves the entire ledger state unchanged. -/
theorem claim_C6_stale_close (cfg : Config) (now : Int) (ticker : String)
    (s : LedgerState) (position : Position)
    (hfind : mapFind ticker s.positions = some position)
    (hnodup : (s.positions.map Prod.fst).Nodup) :
    (cfg.MAX_POSITION_AGE_MS < now - position.entryTime →
      ∃ ct, (checkTicker cfg now none ticker s).closedTrades = s.closedTrades ++ [ct] ∧
        ct.pnl = 0 ∧ ct.pnlPercent = 0 ∧ ct.exitPrice = position.entryPrice ∧
        ct.reason = CloseReason.staleData cfg.MAX_POSITION_AGE_MS ∧
        mapFind ticker (checkTicker cfg now none ticker s).positions = none) ∧
    (now - position.entryTime ≤ cfg.MAX_POSITION_AGE_MS →
      checkTicker cfg now none ticker s = s) := by
  constructor
  · intro hage
    refine ⟨{ ticker := ticker
              side := position.side
              entryPrice := position.entryPrice
              exitPrice := position.entryPrice
              entryTime := position.entryTime
              exitTime := now
              duration := ((now - position.entryTime : Int) : ℚ) / 1000
              pnl := 0
              pnlPercent := 0
              reason := CloseReason.staleData cfg.MAX_POSITION_AGE_MS
              momentumMetrics := mapFind ticker s.positionMomentumMetrics },
      ?_, rfl, rfl, rfl, rfl, ?_⟩
    · simp [checkTicker, hfind, hage, applyClose]
    · simp only [checkTicker, hfind, hage, if_true, applyClose]
      exact mapFind_mapDelete_self hnodup
  · intro hle
    have hnlt : ¬(cfg.MAX_POSITION_AGE_MS < now - position.entryTime) := not_lt.mpr hle
    simp [checkTicker, hfind, hnlt]

/-- Witness for C6 at a concrete input: no price data at 301 seconds with a
300000 ms limit force-closes the stale position at break-even. -/
theorem claim_C6_stale_close_witness :
    (∃ ct, (checkTicker cfgW 301000 none "S" sStale).closedTrades = sStale.closedTrades ++ [ct] ∧
      ct.pnl = 0 ∧ ct.pnlPercent = 0 ∧ ct.exitPrice = posStale.entryPrice ∧
      ct.reason = CloseReason.staleData cfgW.MAX_POSITION_AGE_MS ∧
      mapFind "S" (checkTicker cfgW 301000 none "S" sStale).positions = none) ∧
    checkTicker cfgW 300000 none "S" sStale = sStale := by
  constructor
  · exact (claim_C6_stale_close cfgW 301000 "S" sStale posStale rfl (by simp [sStale])).1
      (by decide)
  · exact (claim_C6_stale_close cfgW 300000 "S" sStale posStale rfl (by simp [sStale])).2
      (by decide)

/-- C9: when a price is available and neither exit rule fires, the exit
check leaves the closed-trade history, the cooldown map and the entry
metrics map untouched, and the positions map changes only by rewriting the
last-logged pnlPercent watermark, which happens exactly when pnlPercent has
moved at least half a percent from the previous watermark. -/
theorem claim_C9_frame (cfg : Config) (now : Int) (pr : Prices) (ticker : String)
    (s : LedgerState) (position : Position) (pnlPercent : ℚ)
    (hfind : mapFind ticker s.positions = some position)
    (hpnl : pnlPercent = calculatePnLPercentage position (currentPriceFor position pr))
    (hp : profitTargetHit cfg pnlPercent = false)
    (hs : stopLossHit cfg pnlPercent = false) :
    (checkTicker cfg now (some pr) ticker s).closedTrades = s.closedTrades ∧
    (checkTicker cfg now (some pr) ticker s).tickerCooldowns = s.tickerCooldowns ∧
    (checkTicker cfg now (some pr) ticker s).positionMomentumMetrics =
      s.positionMomentumMetrics ∧
    ((1 : ℚ)/2 ≤ |pnlPercent - position.lastLoggedPnLPercent.getD pnlPercent| →
      (checkTicker cfg now (some pr) ticker s).positions =
        mapSet ticker { position with lastLoggedPnLPercent := some pnlPercent } s.positions) ∧
    (|pnlPercent - position.lastLoggedPnLPercent.getD pnlPercent| < (1 : ℚ)/2 →
      (checkTicker cfg now (some pr) ticker s).positions = s.positions) := by
  subst hpnl
  simp only [checkTicker, hfind, hp, hs, Bool.or_self, Bool.false_eq_true, if_false]
  refine ⟨?_, ?_, ?_, ?_, ?_⟩
  · split <;> rfl
  · split <;> rfl
  · split <;> rfl
  · intro hmove
    rw [if_pos hmove]
  · intro hsmall
    rw [if_neg (not_le.mpr hsmall)]

/-- Witness for C9 at a concrete input: at a 1 percent gain neither rule
fires, the watermark delta is zero, and the ledger is left unchanged. -/
theorem claim_C9_frame_witness :
    (checkTicker cfgW 1000 (some prFlat) "T" sW).closedTrades = sW.closedTrades ∧
    (checkTicker cfgW 1000 (some prFlat) "T" sW).tickerCooldowns = sW.tickerCooldowns ∧
    (checkTicker cfgW 1000 (some prFlat) "T" sW).positions = sW.positions := by
  have h := claim_C9_frame cfgW 1000 prFlat "T" sW posW 1 rfl
    pnlPercent_posW_prFlat.symm profitTargetHit_cfgW_1 stopLossHit_cfgW_1
  exact ⟨h.1, h.2.1, h.2.2.2.2 (by norm_num [posW])⟩

/-- Concrete evaluation: a 100 percent gain does not cross the 12 percent stop. -/
theorem stopLossHit_cfgW_100 : stopLossHit cfgW 100 = false := by
  norm_num [stopLossHit, cfgW]

/-- Concrete evaluation: a gain of 100 cents counts as a win. -/
theorem decide_win_100 : decide ((0 : ℚ) < 100) = true :=
  decide_eq_true (by norm_num)

/-- C1 (amended, primary variant): every paper close path — exit-rule close,
stale force-close and manual close — appends exactly one ClosedTrade,
removes the Position, and unconditionally records one CooldownEntry carrying
the close timestamp and the win flag; any open attempt on a ticker whose
cooldown entry is younger than the cooldown duration is rejected unchanged,
and once the entry has expired the next open attempt that passes the
duplicate and capacity checks deletes it lazily and succeeds when the
computed contract count is positive. -/
theorem claim_C1_close_cooldown_lifecycle (cfg : Config) (now : Int) (pr : Prices)
    (ticker reasonText : String) (s : LedgerState) (position : Position)
    (hfind : mapFind ticker s.positions = some position)
    (hnodup : (s.positions.map Prod.fst).Nodup) :
    ((profitTargetHit cfg (calculatePnLPercentage position (currentPriceFor position pr)) ||
      stopLossHit cfg (calculatePnLPercentage position (currentPriceFor position pr))) = true →
      (∃ ct, (checkTicker cfg now (some pr) ticker s).closedTrades = s.closedTrades ++ [ct]) ∧
      mapFind ticker (checkTicker cfg now (some pr) ticker s).positions = none ∧
      mapFind ticker (checkTicker cfg now (some pr) ticker s).tickerCooldowns =
        some ⟨now, decide (0 < calculatePnL position (currentPriceFor position pr))⟩) ∧
    (cfg.MAX_POSITION_AGE_MS < now - position.entryTime →
      (∃ ct, (checkTicker cfg now none ticker s).closedTrades = s.closedTrades ++ [ct]) ∧
      mapFind ticker (checkTicker cfg now none ticker s).positions = none ∧
      mapFind ticker (checkTicker cfg now none ticker s).tickerCooldowns =
        some ⟨now, false⟩) ∧
    ((∃ ct, (closePositionManually now (some pr) reasonText ticker s).1.closedTrades =
        s.closedTrades ++ [ct]) ∧
      mapFind ticker (closePositionManually now (some pr) reasonText ticker s).1.positions =
        none ∧
      mapFind ticker (closePositionManually now (some pr) reasonText ticker s).1.tickerCooldowns =
        some ⟨now, decide (0 < calculatePnL position (currentPriceFor position pr))⟩) ∧
    (∀ (s₂ : LedgerState) (cd : CooldownEntry) (now₂ : Int) (trade : TradeUpdate)
        (metrics : MomentumMetrics),
      mapFind trade.market_ticker s₂.tickerCooldowns = some cd →
      now₂ - cd.timestamp < cfg.COOLDOWN_TIME_MS →
      openPosition cfg now₂ trade metrics s₂ = s₂) ∧
    (∀ (s₂ : LedgerState) (cd : CooldownEntry) (now₂ : Int) (trade : TradeUpdate)
        (metrics : MomentumMetrics),
      (s₂.tickerCooldowns.map Prod.fst).Nodup →
      mapFind trade.market_ticker s₂.tickerCooldowns = some cd →
      cfg.COOLDOWN_TIME_MS ≤ now₂ - cd.timestamp →
      mapFind trade.market_ticker s₂.positions = none →
      s₂.positions.length < cfg.MAX_OPEN_POSITIONS →
      mapFind trade.market_ticker (openPosition cfg now₂ trade metrics s₂).tickerCooldowns =
        none ∧
      (0 < contractsFor cfg trade metrics →
        (mapFind trade.market_ticker
          (openPosition cfg now₂ trade metrics s₂).positions).isSome = true)) := by
  refine ⟨fun hfire => ?_, fun hage => ?_, ?_,
    fun s₂ cd now₂ trade metrics hcd hlt => ?_,
    fun s₂ cd now₂ trade metrics hnodup₂ hcd hle hpos hlen => ?_⟩
  · refine ⟨⟨_, by simp [checkTicker, hfind, hfire, applyClose]; rfl⟩, ?_, ?_⟩
    · simp [checkTicker, hfind, hfire, applyClose, mapFind_mapDelete_self hnodup]
    · simp [checkTicker, hfind, hfire, applyClose, mapFind_mapSet_self]
  · refine ⟨⟨_, by simp [checkTicker, hfind, hage, applyClose]; rfl⟩, ?_, ?_⟩
    · simp [checkTicker, hfind, hage, applyClose, mapFind_mapDelete_self hnodup]
    · simp [checkTicker, hfind, hage, applyClose, mapFind_mapSet_self]
  · refine ⟨⟨_, by simp [closePositionManually, hfind, applyClose]; rfl⟩, ?_, ?_⟩
    · simp [closePositionManually, hfind, applyClose, mapFind_mapDelete_self hnodup]
    · simp [closePositionManually, hfind, applyClose, mapFind_mapSet_self]
  · simp [openPosition, hcd, hlt]
  · have hnle : ¬(now₂ - cd.timestamp < cfg.COOLDOWN_TIME_MS) := not_lt.mpr hle
    have hcap : ¬(cfg.MAX_OPEN_POSITIONS ≤ s₂.positions.length) := not_le.mpr hlen
    constructor
    · simp only [openPosition, hpos, Option.isSome_none, Bool.false_eq_true, if_false,
        hcap, hcd, hnle, openPositionSized]
      split
      · exact mapFind_mapDelete_self hnodup₂
      · exact mapFind_mapDelete_self hnodup₂
    · intro hcontr
      have hnc : ¬(contractsFor cfg trade metrics ≤ 0) := not_le.mpr hcontr
      simp [openPosition, hpos, hcap, hcd, hnle, openPositionSized, hnc, mapFind_mapSet_self]

/-- Witness for C1 at a concrete input: the profit-target close of the
sample position records the win-flavored cooldown at the close time, and a
re-entry attempt one second later is rejected unchanged. -/
theorem claim_C1_close_cooldown_lifecycle_witness :
    (∃ ct, (checkTicker cfgW 1000 (some prW) "T" sW).closedTrades =
      sW.closedTrades ++ [ct]) ∧
    mapFind "T" (checkTicker cfgW 1000 (some prW) "T" sW).positions = none ∧
    mapFind "T" (checkTicker cfgW 1000 (some prW) "T" sW).tickerCooldowns =
      some ⟨1000, true⟩ ∧
    openPosition cfgW 2000 tradeW metricsW (checkTicker cfgW 1000 (some prW) "T" sW) =
      checkTicker cfgW 1000 (some prW) "T" sW := by
  have h := claim_C1_close_cooldown_lifecycle cfgW 1000 prW "T" "Manual close" sW posW rfl
    (by simp [sW])
  have hfire : (profitTargetHit cfgW (calculatePnLPercentage posW (currentPriceFor posW prW)) ||
      stopLossHit cfgW (calculatePnLPercentage posW (currentPriceFor posW prW))) = true := by
    simp [pnlPercent_posW_prW, profitTargetHit_cfgW_100]
  have hclose := h.1 hfire
  have hcool : mapFind "T" (checkTicker cfgW 1000 (some prW) "T" sW).tickerCooldowns =
      some ⟨1000, true⟩ := by
    have := hclose.2.2
    simpa [pnlCents_posW_prW, decide_win_100] using this
  refine ⟨hclose.1, hclose.2.1, hcool, ?_⟩
  exact h.2.2.2.1 (checkTicker cfgW 1000 (some prW) "T" sW) ⟨1000, true⟩ 2000 tradeW metricsW
    hcool (by decide)

/-- Counterexample for C1 as stated: in the legacy variant, with win
cooldown disabled (the default), a winning exit-rule close appends the
trade and removes the position but records no CooldownEntry at all. -/
theorem claim_C1_counterexample :
    (checkTickerLegacy cfgW 1000 (some prW) "T" sW).closedTrades.length = 1 ∧
    mapFind "T" (checkTickerLegacy cfgW 1000 (some prW) "T" sW).positions = none ∧
    mapFind "T" (checkTickerLegacy cfgW 1000 (some prW) "T" sW).tickerCooldowns = none := by
  have hfindW : mapFind "T" sW.positions = some posW := rfl
  have hW : cfgW.WIN_COOLDOWN_ENABLED = false := rfl
  have hL : cfgW.LOSS_COOLDOWN_ENABLED = true := rfl
  refine ⟨?_, ?_, ?_⟩ <;>
    simp [checkTickerLegacy, hfindW, pnlPercent_posW_prW, pnlCents_posW_prW,
      profitTargetHit_cfgW_100, stopLossHit_cfgW_100, decide_win_100, hW, hL, sW,
      mapDelete, mapFind]

/-- Concrete evaluation: a 50 cent stake at a 60 cent entry sizes to zero
contracts. -/
theorem contractsFor_cfgSmall : contractsFor cfgSmall tradeHigh metricsW = 0 := by
  have h : cfgSmall.POSITION_SIZE_DOLLARS * 100 / entryPriceFor tradeHigh metricsW = 5/6 := by
    norm_num [cfgSmall, cfgW, entryPriceFor, chooseSide, tradeHigh, tradeW, metricsW]
  rw [contractsFor, h, Int.floor_eq_zero_iff]
  rw [Set.mem_Ico]
  constructor <;> norm_num

/-- C4 (amended): openPosition checks its rejections in order — (a) already
open, (b) capacity reached, (c) active cooldown, (d) zero-contract sizing —
and every rejection opens nothing; rejections (a) to (c), and (d) when no
cooldown entry exists, leave the ledger state entirely unchanged, but a (d)
rejection reached past an expired cooldown entry has already deleted that
entry, so the cooldown map shrinks even though the open is rejected. -/
theorem claim_C4_open_rejections (cfg : Config) (now : Int) (trade : TradeUpdate)
    (metrics : MomentumMetrics) (s : LedgerState) :
    ((mapFind trade.market_ticker s.positions).isSome = true →
      openPosition cfg now trade metrics s = s) ∧
    (mapFind trade.market_ticker s.positions = none →
      cfg.MAX_OPEN_POSITIONS ≤ s.positions.length →
      openPosition cfg now trade metrics s = s) ∧
    (mapFind trade.market_ticker s.positions = none →
      s.positions.length < cfg.MAX_OPEN_POSITIONS →
      ∀ cd, mapFind trade.market_ticker s.tickerCooldowns = some cd →
        now - cd.timestamp < cfg.COOLDOWN_TIME_MS →
        openPosition cfg now trade metrics s = s) ∧
    (mapFind trade.market_ticker s.positions = none →
      s.positions.length < cfg.MAX_OPEN_POSITIONS →
      mapFind trade.market_ticker s.tickerCooldowns = none →
      contractsFor cfg trade metrics ≤ 0 →
      openPosition cfg now trade metrics s = s) ∧
    (mapFind trade.market_ticker s.positions = none →
      s.positions.length < cfg.MAX_OPEN_POSITIONS →
      ∀ cd, mapFind trade.market_ticker s.tickerCooldowns = some cd →
        cfg.COOLDOWN_TIME_MS ≤ now - cd.timestamp →
        contractsFor cfg trade metrics ≤ 0 →
        openPosition cfg now trade metrics s =
          { s with tickerCooldowns := mapDelete trade.market_ticker s.tickerCooldowns }) := by
  refine ⟨fun ha => ?_, fun h1 h2 => ?_, fun h1 h2 cd hcd hlt => ?_,
    fun h1 h2 hcd hc => ?_, fun h1 h2 cd hcd hle hc => ?_⟩
  · simp [openPosition, ha]
  · simp [openPosition, h1, h2]
  · simp [openPosition, h1, not_le.mpr h2, hcd, hlt]
  · simp [openPosition, h1, not_le.mpr h2, hcd, openPositionSized, hc]
  · simp [openPosition, h1, not_le.mpr h2, hcd, not_lt.mpr hle, openPositionSized, hc]

/-- Witness for C4 at concrete inputs: an open on a ticker that already has
a position is a pure no-op, and a zero-contract open attempt past an
expired cooldown entry deletes that entry while opening nothing. -/
theorem claim_C4_open_rejections_witness :
    openPosition cfgW 5 tradeW metricsW sW = sW ∧
    openPosition cfgSmall 100000 tradeHigh metricsW sCD =
      { sCD with tickerCooldowns := mapDelete "T" sCD.tickerCooldowns } := by
  constructor
  · exact (claim_C4_open_rejections cfgW 5 tradeW metricsW sW).1 rfl
  · exact (claim_C4_open_rejections cfgSmall 100000 tradeHigh metricsW sCD).2.2.2.2
      rfl (by decide) ⟨0, false⟩ rfl (by decide) (le_of_eq contractsFor_cfgSmall)

/-- Counterexample for C4 as stated: the zero-contract rejection reached
past an expired cooldown entry is not a silent no-op on the whole ledger —
it opens nothing, yet the cooldown map has changed. -/
theorem claim_C4_counterexample :
    (openPosition cfgSmall 100000 tradeHigh metricsW sCD).positions = sCD.positions ∧
    (openPosition cfgSmall 100000 tradeHigh metricsW sCD).closedTrades = sCD.closedTrades ∧
    (openPosition cfgSmall 100000 tradeHigh metricsW sCD).tickerCooldowns ≠
      sCD.tickerCooldowns := by
  have h0 : mapFind "T" sCD.positions = none := rfl
  have hcd : mapFind "T" sCD.tickerCooldowns = some ⟨0, false⟩ := rfl
  have hres : openPosition cfgSmall 100000 tradeHigh metricsW sCD =
      { sCD with tickerCooldowns := mapDelete "T" sCD.tickerCooldowns } := by
    have hle : ¬((100000 : Int) < cfgSmall.COOLDOWN_TIME_MS) := by decide
    have hcap : ¬(cfgSmall.MAX_OPEN_POSITIONS ≤ sCD.positions.length) := by decide
    have htick : tradeHigh.market_ticker = "T" := rfl
    simp [openPosition, htick, h0, hcap, hcd, hle, openPositionSized,
      le_of_eq contractsFor_cfgSmall]
  rw [hres]
  refine ⟨rfl, rfl, ?_⟩
  simp [sCD, mapDelete]

/-- Along a nondecreasing chain, every element is bounded by the last. -/
theorem chain_le_getLastD {t0 : Int} {l : List Int}
    (h : List.Chain (fun a b => a ≤ b) t0 l) :
    t0 ≤ l.getLastD t0 ∧ ∀ x ∈ l, x ≤ l.getLastD t0 := by
  induction l generalizing t0 with
  | nil => simp
  | cons a l ih =>
    rw [List.chain_cons] at h
    obtain ⟨hta, hch⟩ := h
    have hrec := ih hch
    rw [List.getLastD_cons]
    refine ⟨le_trans hta hrec.1, ?_⟩
    intro x hx
    rcases List.mem_cons.mp hx with hx | hx
    · exact hx ▸ hrec.1
    · exact hrec.2 x hx

/-- Re-filtering with a later (larger) cutoff subsumes an earlier one. -/
theorem filter_cutoff_mono (w : Int) {a b : Int} (hab : a ≤ b) (q : List TimedTrade) :
    (q.filter (fun e => decide (a - w * 1000 < e.timestamp))).filter
      (fun e => decide (b - w * 1000 < e.timestamp)) =
    q.filter (fun e => decide (b - w * 1000 < e.timestamp)) := by
  induction q with
  | nil => rfl
  | cons e rest ih =>
    by_cases hb : b - w * 1000 < e.timestamp
    · have ha : a - w * 1000 < e.timestamp := lt_of_le_of_lt (by omega) hb
      simp [List.filter_cons, ha, hb, ih]
    · by_cases ha : a - w * 1000 < e.timestamp
      · simp [List.filter_cons, ha, hb, ih]
      · simp [List.filter_cons, ha, hb, ih]

/-- Folding nondecreasing-time records into a window queue leaves exactly the
entries newer than the final cutoff. -/
theorem recordAll_eq_filter (w : Int) (hw : 0 < w) :
    ∀ (entries : List (TradeUpdate × Int)) (q : List TimedTrade) (t0 : Int),
      List.Chain (fun a b => a ≤ b) t0 (entries.map Prod.snd) →
      recordAll w entries
          (q.filter (fun e => decide (t0 - w * 1000 < e.timestamp))) =
        (q ++ entries.map (fun p => (⟨p.1, p.2⟩ : TimedTrade))).filter
          (fun e => decide ((entries.map Prod.snd).getLastD t0 - w * 1000 < e.timestamp)) := by
  intro entries
  induction entries with
  | nil =>
    intro q t0 _
    simp [recordAll]
  | cons p rest ih =>
    intro q t0 h
    obtain ⟨tr, t⟩ := p
    simp only [List.map_cons] at h
    rw [List.chain_cons] at h
    obtain ⟨hta, hch⟩ := h
    have hstep : addTradeToMomentum w t tr
        (q.filter (fun e => decide (t0 - w * 1000 < e.timestamp))) =
        (q ++ [(⟨tr, t⟩ : TimedTrade)]).filter
          (fun e => decide (t - w * 1000 < e.timestamp)) := by
      unfold addTradeToMomentum
      rw [List.filter_append, List.filter_append]
      have h1 : (q.filter (fun e => decide (t0 - w * 1000 < e.timestamp))).filter
          (fun e => decide (t - w * 1000 < e.timestamp)) =
          q.filter (fun e => decide (t - w * 1000 < e.timestamp)) :=
        filter_cutoff_mono w hta q
      have h2 : ([(⟨tr, t⟩ : TimedTrade)].filter
          (fun e => decide (t - w * 1000 < e.timestamp))) = [⟨tr, t⟩] := by
        have ht : t - w * 1000 < t := by omega
        simp [ht]
      rw [h1, h2]
    show recordAll w rest _ = _
    rw [hstep]
    simp only [List.map_cons, List.getLastD_cons]
    nth_rewrite 2 [List.append_cons]
    exact ih (q ++ [(⟨tr, t⟩ : TimedTrade)]) t hch

/-- C7 (amended): record appends the tick at the current time and evicts
exactly the entries with timestamp at or before now minus the window; over
any nondecreasing sequence of recordings the queue holds exactly the ticks
recorded in the half-open interval (lastNow - window, lastNow] — a tick
recorded exactly one window before the last record is evicted — and the
snapshot is null exactly on the empty queue, with totalVolume the sum of
sizes, tradeCount the queue length, directionalBias the yes fraction and
priceChange the last minus first price. -/
theorem claim_C7_window_snapshot (w : Int) (hw : 0 < w) (now t0 : Int) (tr : TradeUpdate)
    (q : List TimedTrade) (entries : List (TradeUpdate × Int))
    (hchain : List.Chain (fun a b => a ≤ b) t0 (entries.map Prod.snd)) :
    (∀ e : TimedTrade, e ∈ addTradeToMomentum w now tr q ↔
      (e ∈ q ++ [⟨tr, now⟩] ∧ ¬(e.timestamp ≤ now - w * 1000))) ∧
    recordAll w entries [] =
      (entries.map (fun p => (⟨p.1, p.2⟩ : TimedTrade))).filter
        (fun e => decide ((entries.map Prod.snd).getLastD t0 - w * 1000 < e.timestamp)) ∧
    (recordAll w entries []).length = (entries.filter (fun p =>
      decide ((entries.map Prod.snd).getLastD t0 - w * 1000 < p.2) &&
      decide (p.2 ≤ (entries.map Prod.snd).getLastD t0))).length ∧
    (calculateMomentumMetrics q = none ↔ q = []) ∧
    (∀ m, calculateMomentumMetrics q = some m →
      m.totalVolume = (q.map (fun t => t.trade.count)).sum ∧
      m.tradeCount = q.length ∧
      m.directionalBias =
        ((q.filter (fun t => decide (t.trade.taker_side = Side.yes))).length : ℚ) / q.length ∧
      m.priceChange = ((q.getLast?).map (fun t => t.trade.price)).getD 0 -
        ((q.head?).map (fun t => t.trade.price)).getD 0) := by
  have hrec : recordAll w entries [] =
      (entries.map (fun p => (⟨p.1, p.2⟩ : TimedTrade))).filter
        (fun e => decide ((entries.map Prod.snd).getLastD t0 - w * 1000 < e.timestamp)) := by
    have := recordAll_eq_filter w hw entries [] t0 hchain
    simpa using this
  refine ⟨?_, hrec, ?_, ?_, ?_⟩
  · intro e
    unfold addTradeToMomentum
    simp only [List.filter_append, List.mem_append, List.mem_filter, decide_eq_true_eq, not_le]
    tauto
  · rw [hrec]
    have hbound := (chain_le_getLastD hchain).2
    have hcongr : entries.filter (fun p =>
        decide ((entries.map Prod.snd).getLastD t0 - w * 1000 < p.2) &&
        decide (p.2 ≤ (entries.map Prod.snd).getLastD t0)) =
        entries.filter (fun p =>
          decide ((entries.map Prod.snd).getLastD t0 - w * 1000 < p.2)) := by
      apply List.filter_congr
      intro p hp
      have hle : p.2 ≤ (entries.map Prod.snd).getLastD t0 :=
        hbound p.2 (List.mem_map.mpr ⟨p, hp, rfl⟩)
      rw [decide_eq_true hle, Bool.and_true]
    rw [hcongr, List.filter_map]
    rw [List.length_map]
    rfl
  · rcases q with _ | ⟨e, rest⟩
    · simp [calculateMomentumMetrics]
    · simp [calculateMomentumMetrics]
  · intro m hm
    rcases q with _ | ⟨e, rest⟩
    · simp [calculateMomentumMetrics] at hm
    · simp only [calculateMomentumMetrics, List.isEmpty_cons, if_false,
        Bool.false_eq_true, Option.some.injEq] at hm
      subst hm
      refine ⟨rfl, rfl, ?_, rfl⟩
      simp

/-- Witness for C7 at concrete inputs: two recordings 50 seconds apart with a
60 second window both remain in the queue, and the snapshot of a singleton
queue reports one trade with its full volume. -/
theorem claim_C7_window_snapshot_witness :
    (recordAll 60 entriesW []).length = 2 ∧
    (∀ m, calculateMomentumMetrics [(⟨tradeW, 0⟩ : TimedTrade)] = some m →
      m.tradeCount = 1) := by
  have h := claim_C7_window_snapshot 60 (by decide) 0 0 tradeW
    [(⟨tradeW, 0⟩ : TimedTrade)] entriesW
    (show List.Chain (fun a b => a ≤ b) 0 [0, 50000] from
      List.Chain.cons (by decide) (List.Chain.cons (by decide) List.Chain.nil))
  constructor
  · rw [h.2.2.1]
    decide
  · intro m hm
    exact ((h.2.2.2.2 m hm).2.1).trans rfl

/-- Counterexample for C7 as stated: with a 60 second window, a tick
recorded at time 0 and one at time 60000 are both within the closed
interval [now - window, now] of the last record, yet the queue holds only
one of them — the eviction boundary is exclusive, not inclusive. -/
theorem claim_C7_counterexample :
    (recordAll 60 entriesB []).length = 1 ∧
    (entriesB.filter (fun p =>
      decide (60000 - 60 * 1000 ≤ p.2) && decide (p.2 ≤ 60000))).length = 2 := by
  constructor <;> decide

/-- C8 (amended): the mid price of each side is the average of best bid and best
ask when both exist, falls back to whichever one exists, and is null when
neither is available; the combined result is null when either side resolves
to null; the cache-bypassing retry fetch is performed exactly when the
initial metadata fetch fails, and when the first fetch succeeds — even with
no quotes at all — no retry happens. -/
theorem claim_C8_mid_price_retry (b a : ℚ) (f : Bool → Option MarketQuotes)
    (m : MarketQuotes) :
    midPriceOfQuotes (some b) (some a) = some ((b * 100 + a * 100) / 2) ∧
    midPriceOfQuotes (some b) none = some (b * 100) ∧
    midPriceOfQuotes none (some a) = some (a * 100) ∧
    midPriceOfQuotes none none = none ∧
    (combineQuotes m = none ↔
      (midPriceOfQuotes m.yesBid m.yesAsk = none ∨
       midPriceOfQuotes m.noBid m.noAsk = none)) ∧
    (f false = some m → getCurrentPrice f = (combineQuotes m, [false])) ∧
    (f false = none → (getCurrentPrice f).2 = [false, true]) ∧
    (f false = none → f true = none → (getCurrentPrice f).1 = none) ∧
    (f false = none → f true = some m → (getCurrentPrice f).1 = combineQuotes m) := by
  refine ⟨rfl, rfl, rfl, rfl, ?_, fun h => ?_, fun h => ?_, fun h h2 => ?_, fun h h2 => ?_⟩
  · unfold combineQuotes
    cases hy : midPriceOfQuotes m.yesBid m.yesAsk with
    | none => simp
    | some y =>
      cases hn : midPriceOfQuotes m.noBid m.noAsk with
      | none => simp
      | some n => simp
  · simp [getCurrentPrice, h]
  · cases h2 : f true with
    | none => simp [getCurrentPrice, h, h2]
    | some m2 => simp [getCurrentPrice, h, h2]
  · simp [getCurrentPrice, h, h2]
  · simp [getCurrentPrice, h, h2]

/-- Witness for C8 at a concrete input: a successful fetch returning a
market with no quotes yields a null price after a single non-bypassing
fetch call. -/
theorem claim_C8_mid_price_retry_witness :
    getCurrentPrice (fun _ => some quotesEmpty) = (none, [false]) := by
  have h := claim_C8_mid_price_retry 1 1 (fun _ => some quotesEmpty) quotesEmpty
  exact (h.2.2.2.2.2.1 rfl).trans rfl

/-- Counterexample for C8 as stated: when the fetch succeeds but neither bid
nor ask is available on a side, getCurrentPrice returns null without ever
making the cache-bypassing retry call — the retry happens only when the
fetch itself fails. -/
theorem claim_C8_counterexample :
    (getCurrentPrice (fun _ => some quotesEmpty)).1 = none ∧
    (getCurrentPrice (fun _ => some quotesEmpty)).2 = [false] := by
  exact ⟨rfl, rfl⟩

/-- Greatest element computed by a left fold of max: it is the seed or one
of the elements, and it bounds the seed and every element. -/
theorem foldl_max_spec (xs : List ℚ) (a : ℚ) :
    (xs.foldl max a = a ∨ xs.foldl max a ∈ xs) ∧ a ≤ xs.foldl max a ∧
      ∀ x ∈ xs, x ≤ xs.foldl max a := by
  induction xs generalizing a with
  | nil => simp
  | cons b xs ih =>
    have h := ih (max a b)
    simp only [List.foldl_cons]
    refine ⟨?_, le_trans (le_max_left a b) h.2.1, ?_⟩
    · rcases h.1 with h1 | h1
      · rcases max_choice a b with hm | hm
        · exact Or.inl (h1.trans hm)
        · exact Or.inr (List.mem_cons.mpr (Or.inl (h1.trans hm)))
      · exact Or.inr (List.mem_cons.mpr (Or.inr h1))
    · intro x hx
      rcases List.mem_cons.mp hx with hx | hx
      · rw [hx]
        exact le_trans (le_max_right a b) h.2.1
      · exact h.2.2 x hx

/-- Least element computed by a left fold of min. -/
theorem foldl_min_spec (xs : List ℚ) (a : ℚ) :
    (xs.foldl min a = a ∨ xs.foldl min a ∈ xs) ∧ xs.foldl min a ≤ a ∧
      ∀ x ∈ xs, xs.foldl min a ≤ x := by
  induction xs generalizing a with
  | nil => simp
  | cons b xs ih =>
    have h := ih (min a b)
    simp only [List.foldl_cons]
    refine ⟨?_, le_trans h.2.1 (min_le_left a b), ?_⟩
    · rcases h.1 with h1 | h1
      · rcases min_choice a b with hm | hm
        · exact Or.inl (h1.trans hm)
        · exact Or.inr (List.mem_cons.mpr (Or.inl (h1.trans hm)))
      · exact Or.inr (List.mem_cons.mpr (Or.inr h1))
    · intro x hx
      rcases List.mem_cons.mp hx with hx | hx
      · rw [hx]
        exact le_trans h.2.1 (min_le_right a b)
      · exact h.2.2 x hx

/-- A nonempty list of positive rationals has a positive sum. -/
theorem sum_pos_of_mem_pos {l : List ℚ} (h : ∀ x ∈ l, 0 < x) (hne : l ≠ []) :
    0 < l.sum := by
  match l, hne with
  | x :: xs, _ =>
    rw [List.sum_cons]
    have h0 : 0 ≤ xs.sum :=
      List.sum_nonneg (fun y hy => (h y (List.mem_cons_of_mem x hy)).le)
    have hx : 0 < x := h x (List.mem_cons_self x xs)
    linarith

/-- A list of nonpositive rationals has a nonpositive sum. -/
theorem sum_nonpos_of_mem {l : List ℚ} (h : ∀ x ∈ l, x ≤ 0) : l.sum ≤ 0 := by
  induction l with
  | nil => simp
  | cons x xs ih =>
    rw [List.sum_cons]
    have hx := h x (List.mem_cons_self x xs)
    have h2 := ih (fun y hy => h y (List.mem_cons_of_mem x hy))
    linarith

/-- A nonempty list of negative rationals has a negative sum. -/
theorem sum_neg_of_mem_neg {l : List ℚ} (h : ∀ x ∈ l, x < 0) (hne : l ≠ []) :
    l.sum < 0 := by
  match l, hne with
  | x :: xs, _ =>
    rw [List.sum_cons]
    have h0 : xs.sum ≤ 0 :=
      sum_nonpos_of_mem (fun y hy => (h y (List.mem_cons_of_mem x hy)).le)
    have hx : x < 0 := h x (List.mem_cons_self x xs)
    linarith

/-- maxD of a nonempty list is one of its elements and bounds all of them. -/
theorem maxD_spec {l : List ℚ} (h : l ≠ []) : maxD l ∈ l ∧ ∀ x ∈ l, x ≤ maxD l := by
  match l, h with
  | x :: xs, _ =>
    have hs := foldl_max_spec xs x
    constructor
    · rcases hs.1 with h1 | h1
      · rw [maxD, h1]
        exact List.mem_cons_self x xs
      · exact List.mem_cons.mpr (Or.inr h1)
    · intro y hy
      rcases List.mem_cons.mp hy with hy | hy
      · rw [hy]
        exact hs.2.1
      · exact hs.2.2 y hy

/-- minD of a nonempty list is one of its elements and is below all of them. -/
theorem minD_spec {l : List ℚ} (h : l ≠ []) : minD l ∈ l ∧ ∀ x ∈ l, minD l ≤ x := by
  match l, h with
  | x :: xs, _ =>
    have hs := foldl_min_spec xs x
    constructor
    · rcases hs.1 with h1 | h1
      · rw [minD, h1]
        exact List.mem_cons_self x xs
      · exact List.mem_cons.mpr (Or.inr h1)
    · intro y hy
      rcases List.mem_cons.mp hy with hy | hy
      · rw [hy]
        exact hs.2.1
      · exact hs.2.2 y hy

/-- C10: getMetrics is a pure reducer over the closed-trade history — an
empty history yields all-zero metrics, and otherwise totalTrades is the
history length, winningTrades counts trades with positive pnl, losingTrades
counts trades with negative pnl, totalPnL is the pnl sum, winRate is the win
fraction scaled to percent, avgWin and avgLoss are the mean win and mean
loss magnitude, profitFactor is total win pnl over total loss magnitude —
infinite with wins and no losses, zero with neither — and largestWin and
largestLoss are the extreme win and loss pnl values. -/
theorem claim_C10_metrics (trades : List ClosedTrade) :
    getMetrics [] = ⟨0, 0, 0, 0, 0, 0, 0, ProfitFactor.val 0, 0, 0⟩ ∧
    (trades ≠ [] →
      (getMetrics trades).totalTrades = trades.length ∧
      (getMetrics trades).winningTrades = trades.countP (fun t => decide (0 < t.pnl)) ∧
      (getMetrics trades).losingTrades = trades.countP (fun t => decide (t.pnl < 0)) ∧
      (getMetrics trades).totalPnL = (trades.map (fun t => t.pnl)).sum ∧
      (getMetrics trades).winRate =
        (trades.countP (fun t => decide (0 < t.pnl)) : ℚ) / trades.length * 100 ∧
      (trades.filter (fun t => decide (0 < t.pnl)) ≠ [] →
        (getMetrics trades).avgWin =
          ((trades.filter (fun t => decide (0 < t.pnl))).map (fun t => t.pnl)).sum /
            (trades.filter (fun t => decide (0 < t.pnl))).length) ∧
      (trades.filter (fun t => decide (t.pnl < 0)) ≠ [] →
        (getMetrics trades).avgLoss =
          |((trades.filter (fun t => decide (t.pnl < 0))).map (fun t => t.pnl)).sum| /
            (trades.filter (fun t => decide (t.pnl < 0))).length) ∧
      (trades.filter (fun t => decide (t.pnl < 0)) ≠ [] →
        (getMetrics trades).profitFactor = ProfitFactor.val
          (((trades.filter (fun t => decide (0 < t.pnl))).map (fun t => t.pnl)).sum /
            |((trades.filter (fun t => decide (t.pnl < 0))).map (fun t => t.pnl)).sum|)) ∧
      (trades.filter (fun t => decide (t.pnl < 0)) = [] →
        trades.filter (fun t => decide (0 < t.pnl)) ≠ [] →
        (getMetrics trades).profitFactor = ProfitFactor.inf) ∧
      (trades.filter (fun t => decide (t.pnl < 0)) = [] →
        trades.filter (fun t => decide (0 < t.pnl)) = [] →
        (getMetrics trades).profitFactor = ProfitFactor.val 0) ∧
      (trades.filter (fun t => decide (0 < t.pnl)) ≠ [] →
        (getMetrics trades).largestWin ∈
          (trades.filter (fun t => decide (0 < t.pnl))).map (fun t => t.pnl) ∧
        ∀ x ∈ (trades.filter (fun t => decide (0 < t.pnl))).map (fun t => t.pnl),
          x ≤ (getMetrics trades).largestWin) ∧
      (trades.filter (fun t => decide (t.pnl < 0)) ≠ [] →
        (getMetrics trades).largestLoss ∈
          (trades.filter (fun t => decide (t.pnl < 0))).map (fun t => t.pnl) ∧
        ∀ x ∈ (trades.filter (fun t => decide (t.pnl < 0))).map (fun t => t.pnl),
          (getMetrics trades).largestLoss ≤ x)) := by
  have hwin_pos : ∀ x ∈ (trades.filter (fun t => decide (0 < t.pnl))).map (fun t => t.pnl),
      0 < x := by
    intro x hx
    obtain ⟨t, ht, rfl⟩ := List.mem_map.mp hx
    exact of_decide_eq_true (List.mem_filter.mp ht).2
  have hloss_neg : ∀ x ∈ (trades.filter (fun t => decide (t.pnl < 0))).map (fun t => t.pnl),
      x < 0 := by
    intro x hx
    obtain ⟨t, ht, rfl⟩ := List.mem_map.mp hx
    exact of_decide_eq_true (List.mem_filter.mp ht).2
  refine ⟨rfl, fun hne => ?_⟩
  have hE : trades.isEmpty = false := by
    cases trades with
    | nil => exact absurd rfl hne
    | cons t ts => rfl
  simp only [getMetrics, hE, Bool.false_eq_true, if_false]
  refine ⟨?_, ?_, ?_, ?_, ?_, fun hw => ?_, fun hl => ?_, fun hl => ?_,
    fun hl hw => ?_, fun hl hw => ?_, fun hw => ?_, fun hl => ?_⟩
  · trivial
  · rw [List.countP_eq_length_filter]
  · rw [List.countP_eq_length_filter]
  · trivial
  · rw [List.countP_eq_length_filter]
  · rw [if_pos (List.length_pos.mpr hw)]
  · rw [if_pos (List.length_pos.mpr hl)]
  · have hneg : ((trades.filter (fun t => decide (t.pnl < 0))).map (fun t => t.pnl)).sum < 0 :=
      sum_neg_of_mem_neg hloss_neg (by simpa using hl)
    rw [if_pos (abs_pos.mpr (ne_of_lt hneg))]
  · have hpos : 0 < ((trades.filter (fun t => decide (0 < t.pnl))).map (fun t => t.pnl)).sum :=
      sum_pos_of_mem_pos hwin_pos (by simpa using hw)
    rw [hl]
    simp [hpos]
  · rw [hl, hw]
    simp
  · exact maxD_spec (by simpa using hw)
  · exact minD_spec (by simpa using hl)

/-- Witness for C10 at a concrete input: a history of one 5 dollar win and
one 2 dollar loss gives two trades, one win, one loss, total pnl of 3, and
largest win 5, while the empty history gives all-zero metrics. -/
theorem claim_C10_metrics_witness :
    (getMetrics trades10).totalTrades = 2 ∧
    (getMetrics trades10).winningTrades = 1 ∧
    (getMetrics trades10).losingTrades = 1 ∧
    (getMetrics trades10).totalPnL = 3 ∧
    (getMetrics trades10).largestWin = 5 ∧
    getMetrics [] = ⟨0, 0, 0, 0, 0, 0, 0, ProfitFactor.val 0, 0, 0⟩ := by
  have h := claim_C10_metrics trades10
  obtain ⟨h1, h2, h3, h4, h5, h6, h7, h8, h9, h10, h11, h12⟩ := h.2 (by simp [trades10])
  have hmap : (trades10.filter (fun t => decide (0 < t.pnl))).map (fun t => t.pnl) = [5] := by
    decide
  refine ⟨?_, ?_, ?_, ?_, ?_, h.1⟩
  · rw [h1]
    rfl
  · rw [h2]
    decide
  · rw [h3]
    decide
  · rw [h4]
    norm_num [trades10, ctWin, ctLoss]
  · have hw := h11 (by decide)
    rw [hmap] at hw
    exact List.mem_singleton.mp hw.1

end DFlow
